import Mathlib

/-!
Shallow Lean embedding of `jupyter_server/extension/manager.py`
(classes `ExtensionPoint`, `ExtensionPackage`, `ExtensionManager`).

Modelling conventions:
* Python exceptions are an explicit error type `PyErr`; fallible code
  returns `Except PyErr α`.
* Observable side effects (invoking an `app` factory, invoking a
  link/load hook, emitting a log record) are recorded in a trace of
  `Event`s: each operation returns `List Event × Except PyErr α`.
* Python dicts are insertion-ordered association lists with unique keys;
  `dictInsert` mirrors `d[k] = v` (overwrite in place, else append) and
  `dictGet` mirrors `d.get(k)`.
* The collaborators that live outside this module (importlib's
  `import_module`, and `get_metadata` from `extension/utils.py`) are an
  explicit environment `Env`.
* The class-level dictionaries `ExtensionManager._enabled_extensions`,
  `ExtensionManager._linked_extensions` and
  `ExtensionPackage._linked_points` are plain class attributes in the
  source, mutated in place and therefore shared by every instance of
  their class in the process.  They are modelled as one `GlobalState`
  value threaded through the operations.
* `ExtensionPoint._valid_metadata` runs as a traitlets cross-validator.
  At construction time (`ExtensionPoint(metadata=m)`) traitlets defers
  cross-validation until after the raw value is assigned
  (`HasTraits.hold_trait_notifications`), so inside the validator
  `self.metadata` is the very dict being validated; the validator
  therefore reads the proposed packet and runs exactly once per
  construction.
-/

/-- Python exceptions that can arise in this module.  The first three are
declared in `extension/utils.py`; the rest are built-in Python errors. -/
inductive PyErr where
  | extensionMetadataError
  | extensionModuleNotFound
  | loaderNotFoundError
  | keyError
  | attributeError
  | hookError (msg : String)
deriving DecidableEq, Repr

/-- Observable events: factory invocations, hook invocations and log
records (`self.log.warning` / `self.log.debug`). -/
inductive Event where
  | factoryCall (id : String)
  | hookCall (id : String)
  | logWarning
  | logDebug
deriving DecidableEq, Repr

/-- A link or load hook supplied by extension code
(`_link_jupyter_server_extension` / `_load_jupyter_server_extension`).
`run` may raise an arbitrary exception. -/
structure Hook (Host : Type) where
  id : String
  run : Host → Except PyErr Unit

/-- Invoking a hook records the call and produces the hook's outcome. -/
def Hook.invoke {Host : Type} (h : Hook Host) (serverapp : Host) :
    List Event × Except PyErr Unit :=
  ([Event.hookCall h.id], h.run serverapp)

/-- A Python module as seen by this code: it may define the two
conventionally named module-level hook functions. -/
structure PyModule (Host : Type) where
  linkHook : Option (Hook Host)
  loadHook : Option (Hook Host)

/-- A host-application object produced by an `app` factory.  It has a
`name` and may carry bound `_link_jupyter_server_extension` /
`_load_jupyter_server_extension` methods. -/
structure App (Host : Type) where
  name : String
  linkHook : Option (Hook Host)
  loadHook : Option (Hook Host)

/-- An `app` factory found in a metadata packet: calling it with no
arguments yields `make`.  `id` identifies the factory in the trace. -/
structure Factory (Host : Type) where
  id : String
  make : App Host

/-- A metadata packet as handed to `ExtensionPoint(metadata=...)`:
a dict with optional keys `module`, `name` and `app` (the `app` field
holds the factory before validation). -/
structure Metadata (Host : Type) where
  module? : Option String
  name? : Option String
  app? : Option (Factory Host)

/-- The metadata dict after `_valid_metadata` ran: line 49 of the source
replaced the factory stored under `app` by the object it returned. -/
structure VMetadata (Host : Type) where
  name? : Option String
  app? : Option (App Host)

/-- External collaborators: `importlib.import_module` resolving a module
name, and `get_metadata` from `extension/utils.py`. -/
structure Env (Host : Type) where
  /-- `importlib.import_module`: `none` models an `ImportError`. -/
  importModule : String → Option (PyModule Host)
  /-- Modelled from the spec: `get_metadata` of `extension/utils.py` is
  not part of the sources; per the spec's module-resolution collaborator
  contract, given a package name it returns the package's ordered
  metadata-packet sequence, or fails with a not-found error (`none`,
  surfaced as an `ImportError`). -/
  getMetadata : String → Option (List (Metadata Host))

/-- A validated `ExtensionPoint`: the validated metadata dict plus the
private attributes `_module_name` and `_module` set by the validator. -/
structure ExtensionPoint (Host : Type) where
  metadata : VMetadata Host
  _module_name : String
  _module : PyModule Host

/-- `ExtensionPoint._valid_metadata` (manager.py lines 27-50), i.e. the
effect of constructing `ExtensionPoint(metadata=packet)`:
raise `ExtensionMetadataError` when the packet has no `module` key,
raise `ExtensionModuleNotFound` when the module does not import, and
invoke an `app` factory once, storing its result in place of the
factory. -/
def ExtensionPoint.create {Host : Type} (env : Env Host) (metadata : Metadata Host) :
    List Event × Except PyErr (ExtensionPoint Host) :=
  match metadata.module? with
  | none => ([], Except.error PyErr.extensionMetadataError)
  | some module_name =>
    match env.importModule module_name with
    | none => ([], Except.error PyErr.extensionModuleNotFound)
    | some m =>
      match metadata.app? with
      | some f =>
          ([Event.factoryCall f.id],
           Except.ok
             { metadata := { name? := metadata.name?, app? := some f.make }
               _module_name := module_name
               _module := m })
      | none =>
          ([],
           Except.ok
             { metadata := { name? := metadata.name?, app? := none }
               _module_name := module_name
               _module := m })

/-- `ExtensionPoint.app` property: `self.metadata.get("app")`. -/
def ExtensionPoint.app {Host : Type} (p : ExtensionPoint Host) : Option (App Host) :=
  p.metadata.app?

/-- `ExtensionPoint.module_name` property. -/
def ExtensionPoint.module_name {Host : Type} (p : ExtensionPoint Host) : String :=
  p._module_name

/-- `ExtensionPoint.name` property: the app object's name when an app is
present, else `metadata.get("name", module_name)`. -/
def ExtensionPoint.name {Host : Type} (p : ExtensionPoint Host) : String :=
  match p.app with
  | some a => a.name
  | none => p.metadata.name?.getD p._module_name

/-- `ExtensionPoint.link` (lines 85-104): use the app object's bound
`_link_jupyter_server_extension` when an app is present (an absent bound
method is an `AttributeError`); otherwise use the module-level function,
falling back to a dummy no-op lambda when the module does not define
it. -/
def ExtensionPoint.link {Host : Type} (p : ExtensionPoint Host) (serverapp : Host) :
    List Event × Except PyErr Unit :=
  match p.app with
  | some a =>
    match a.linkHook with
    | some h => h.invoke serverapp
    | none => ([], Except.error PyErr.attributeError)
  | none =>
    match p._module.linkHook with
    | some h => h.invoke serverapp
    | none => ([], Except.ok ())

/-- Modelled from the spec: `get_loader` of `extension/utils.py` is not
part of the sources.  Per the spec, load-hook lookup is mandatory: given
the object chosen by `ExtensionPoint.load` (the app when present, else
the module), it returns that object's conventional load function or
fails with `LoaderNotFoundError` — no no-op fallback.  The argument is
that object's load-hook field. -/
def get_loader {Host : Type} (loadHook : Option (Hook Host)) :
    Except PyErr (Hook Host) :=
  match loadHook with
  | some h => Except.ok h
  | none => Except.error PyErr.loaderNotFoundError

/-- `ExtensionPoint.load` (lines 106-118): pick the app object if there
is one, else the module, find its load function via `get_loader`
(mandatory) and invoke it. -/
def ExtensionPoint.load {Host : Type} (p : ExtensionPoint Host) (serverapp : Host) :
    List Event × Except PyErr Unit :=
  let loc :=
    match p.app with
    | some a => a.loadHook
    | none => p._module.loadHook
  match get_loader loc with
  | Except.error e => ([], Except.error e)
  | Except.ok h => h.invoke serverapp

/-- Python dict assignment `d[k] = v`: overwrite in place when the key
exists, else append. -/
def dictInsert {α : Type} : List (String × α) → String → α → List (String × α)
  | [], k, v => [(k, v)]
  | (k', v') :: rest, k, v =>
    if k' = k then (k, v) :: rest else (k', v') :: dictInsert rest k v

/-- Python dict lookup `d.get(k)`. -/
def dictGet {α : Type} : List (String × α) → String → Option α
  | [], _ => none
  | (k', v') :: rest, k => if k' = k then some v' else dictGet rest k

/-- Strict lexicographic comparison of character sequences, the order
Python uses to compare strings (by code point). -/
def charListLt : List Char → List Char → Bool
  | _, [] => false
  | [], _ :: _ => true
  | c :: cs, d :: ds => if c < d then true else if d < c then false else charListLt cs ds

/-- Non-strict lexicographic comparison of character sequences. -/
def charListLe : List Char → List Char → Bool
  | [], _ => true
  | _ :: _, [] => false
  | c :: cs, d :: ds => if c < d then true else if d < c then false else charListLe cs ds

/-- Python's `<` on strings. -/
def strLt (a b : String) : Bool := charListLt a.data b.data

/-- Python's `<=` on strings, the comparison behind `sorted`. -/
def strLe (a b : String) : Bool := charListLe a.data b.data

/-- A constructed `ExtensionPackage`: the validated `name`, the metadata
packet sequence `_metadata`, and the dict `_extension_points` keyed by
each point's computed name (insertion order, last write wins). -/
structure ExtensionPackage (Host : Type) where
  name : String
  _metadata : List (Metadata Host)
  _extension_points : List (String × ExtensionPoint Host)

/-- The `for m in self._metadata` loop of `_validate_name` (lines
146-148): construct one `ExtensionPoint` per packet, indexing by
`point.name`; the first failing packet's error propagates, aborting the
loop. -/
def buildPoints {Host : Type} (env : Env Host) :
    List (Metadata Host) → List (String × ExtensionPoint Host) →
    List Event × Except PyErr (List (String × ExtensionPoint Host))
  | [], acc => ([], Except.ok acc)
  | md :: rest, acc =>
    match ExtensionPoint.create env md with
    | (ev, Except.error e) => (ev, Except.error e)
    | (ev, Except.ok point) =>
      let r := buildPoints env rest (dictInsert acc point.name point)
      (ev ++ r.1, r.2)

/-- `ExtensionPackage._validate_name` (lines 134-149), i.e. the effect of
constructing `ExtensionPackage(name=n)`: resolve the package metadata
(`ImportError` becomes `ExtensionModuleNotFound`), then build one
extension point per packet; any point-construction error propagates, so
no package value is produced from a bad packet. -/
def ExtensionPackage.create {Host : Type} (env : Env Host) (name : String) :
    List Event × Except PyErr (ExtensionPackage Host) :=
  match env.getMetadata name with
  | none => ([], Except.error PyErr.extensionModuleNotFound)
  | some mds =>
    match buildPoints env mds [] with
    | (ev, Except.error e) => (ev, Except.error e)
    | (ev, Except.ok pts) =>
      (ev, Except.ok { name := name, _metadata := mds, _extension_points := pts })

/-- `ExtensionPackage.link_point` (lines 161-165).  `linked_points` is
the class-level dict `ExtensionPackage._linked_points`, shared by every
package in the process: skip when the point is already marked linked,
else invoke the point's `link` (a missing point name is a `KeyError`
from `self.extension_points[point_name]`). -/
def ExtensionPackage.link_point {Host : Type} (linked_points : List (String × Bool))
    (pkg : ExtensionPackage Host) (point_name : String) (serverapp : Host) :
    List Event × Except PyErr Unit :=
  let linked := (dictGet linked_points point_name).getD false
  if linked then ([], Except.ok ())
  else
    match dictGet pkg._extension_points point_name with
    | none => ([], Except.error PyErr.keyError)
    | some point => point.link serverapp

/-- `ExtensionPackage.load_point` (lines 167-169): no linked guard. -/
def ExtensionPackage.load_point {Host : Type} (pkg : ExtensionPackage Host)
    (point_name : String) (serverapp : Host) : List Event × Except PyErr Unit :=
  match dictGet pkg._extension_points point_name with
  | none => ([], Except.error PyErr.keyError)
  | some point => point.load serverapp

/-- Run a per-name action over a list of names, aborting on the first
exception (the bare `for` loops of lines 171-177 and 236-252). -/
def runAll (f : String → List Event × Except PyErr Unit) :
    List String → List Event × Except PyErr Unit
  | [] => ([], Except.ok ())
  | n :: rest =>
    match f n with
    | (ev, Except.error e) => (ev, Except.error e)
    | (ev, Except.ok _) =>
      let r := runAll f rest
      (ev ++ r.1, r.2)

/-- `ExtensionPackage.link_all_points` (lines 171-173): iterate the point
dict's keys in insertion order; no failure isolation at this layer. -/
def ExtensionPackage.link_all_points {Host : Type} (linked_points : List (String × Bool))
    (pkg : ExtensionPackage Host) (serverapp : Host) : List Event × Except PyErr Unit :=
  runAll (fun n => pkg.link_point linked_points n serverapp)
    (pkg._extension_points.map Prod.fst)

/-- `ExtensionPackage.load_all_points` (lines 175-177). -/
def ExtensionPackage.load_all_points {Host : Type} (pkg : ExtensionPackage Host)
    (serverapp : Host) : List Event × Except PyErr Unit :=
  runAll (fun n => pkg.load_point n serverapp) (pkg._extension_points.map Prod.fst)

/-- The process-wide state held in class attributes:
`ExtensionManager._enabled_extensions` (line 191),
`ExtensionManager._linked_extensions` (line 196) and
`ExtensionPackage._linked_points` (line 132).  These are mutable class
attributes mutated in place, hence shared by all instances. -/
structure GlobalState (Host : Type) where
  _enabled_extensions : List (String × ExtensionPackage Host)
  _linked_extensions : List (String × Bool)
  _linked_points : List (String × Bool)

/-- The state at process start: all three class-level dicts empty. -/
def GlobalState.initial (Host : Type) : GlobalState Host :=
  { _enabled_extensions := [], _linked_extensions := [], _linked_points := [] }

/-- `ExtensionManager.enabled_extensions` property (lines 198-203):
`dict(sorted(self._enabled_extensions.items()))` — a fresh dict of the
entries sorted by key (Python compares the tuples, and distinct keys
decide the comparison at the first component). -/
def enabled_extensions {Host : Type} (g : GlobalState Host) :
    List (String × ExtensionPackage Host) :=
  g._enabled_extensions.insertionSort (fun a b => strLe a.1 b.1)

/-- `ExtensionManager.add_extension` (lines 211-217): construct an
`ExtensionPackage`; on success store it under `extension_name` in the
shared enabled dict; on any exception log a warning and leave the state
unchanged. -/
def ExtensionManager.add_extension {Host : Type} (env : Env Host) (g : GlobalState Host)
    (extension_name : String) : GlobalState Host × List Event :=
  match ExtensionPackage.create env extension_name with
  | (ev, Except.ok extpkg) =>
    ({ g with
        _enabled_extensions := dictInsert g._enabled_extensions extension_name extpkg },
     ev)
  | (ev, Except.error _) => (g, ev ++ [Event.logWarning])

/-- `ExtensionManager.from_jpserver_extensions` (lines 205-209): add
every extension whose flag is truthy, in the mapping's iteration
order. -/
def ExtensionManager.from_jpserver_extensions {Host : Type} (env : Env Host) :
    GlobalState Host → List (String × Bool) → GlobalState Host × List Event
  | g, [] => (g, [])
  | g, (name, enabled) :: rest =>
    if enabled then
      let r := ExtensionManager.add_extension env g name
      let r' := ExtensionManager.from_jpserver_extensions env r.1 rest
      (r'.1, r.2 ++ r'.2)
    else ExtensionManager.from_jpserver_extensions env g rest

/-- The `try`/`except` wrapper of `link_extension` (lines 222-227): log a
debug record after a successful `link_all_points`, swallow any exception
with a warning. -/
def logLinkOutcome (r : List Event × Except PyErr Unit) : List Event × Except PyErr Unit :=
  match r with
  | (ev, Except.ok _) => (ev ++ [Event.logDebug], Except.ok ())
  | (ev, Except.error _) => (ev ++ [Event.logWarning], Except.ok ())

/-- `ExtensionManager.link_extension` (lines 219-227): read the linked
flag, look the extension up in the sorted view (`self.enabled_extensions[name]`
raises `KeyError` on a missing name, outside the `try`), and unless the
flag is set run `link_all_points` under the catch-and-log wrapper. -/
def ExtensionManager.link_extension {Host : Type} (g : GlobalState Host) (name : String)
    (serverapp : Host) : List Event × Except PyErr Unit :=
  let linked := (dictGet g._linked_extensions name).getD false
  match dictGet (enabled_extensions g) name with
  | none => ([], Except.error PyErr.keyError)
  | some extension =>
    if linked then ([], Except.ok ())
    else logLinkOutcome (extension.link_all_points g._linked_points serverapp)

/-- `ExtensionManager.load_extension` (lines 229-234):
`self.enabled_extensions.get(name)` yields `None` on a missing name, and
the subsequent `None.load_all_points(...)` raises `AttributeError`
inside the `try`; every exception is caught and logged. -/
def ExtensionManager.load_extension {Host : Type} (g : GlobalState Host) (name : String)
    (serverapp : Host) : List Event × Except PyErr Unit :=
  match dictGet (enabled_extensions g) name with
  | none => ([Event.logWarning], Except.ok ())
  | some extension =>
    match extension.load_all_points serverapp with
    | (ev, Except.ok _) => (ev, Except.ok ())
    | (ev, Except.error _) => (ev ++ [Event.logWarning], Except.ok ())

/-- `ExtensionManager.link_all_extensions` (lines 236-243): iterate the
sorted enabled view, linking each extension. -/
def ExtensionManager.link_all_extensions {Host : Type} (g : GlobalState Host)
    (serverapp : Host) : List Event × Except PyErr Unit :=
  runAll (fun name => ExtensionManager.link_extension g name serverapp)
    ((enabled_extensions g).map Prod.fst)

/-- `ExtensionManager.load_all_extensions` (lines 245-252). -/
def ExtensionManager.load_all_extensions {Host : Type} (g : GlobalState Host)
    (serverapp : Host) : List Event × Except PyErr Unit :=
  runAll (fun name => ExtensionManager.load_extension g name serverapp)
    ((enabled_extensions g).map Prod.fst)

/-- An `ExtensionManager` instance.  All the data the source manipulates
through `self` lives in class attributes (`GlobalState`), so an instance
carries no extension state of its own; `instId` only distinguishes
instances. -/
structure ExtensionManagerInst where
  instId : Nat

/-- Constructing a manager (`ExtensionManager(...)`): no class-level dict
is touched, so the shared state is returned unchanged. -/
def ExtensionManager.new {Host : Type} (g : GlobalState Host) (id : Nat) :
    ExtensionManagerInst × GlobalState Host :=
  (⟨id⟩, g)

/-- Reading `enabled_extensions` through a particular instance: the
property reads only the class attribute, so the instance is
irrelevant. -/
def ExtensionManagerInst.enabled_extensions_view {Host : Type}
    (_self : ExtensionManagerInst) (g : GlobalState Host) :
    List (String × ExtensionPackage Host) :=
  enabled_extensions g

/-- States reachable through this core's operations from process start.
Only `add_extension` writes any field of the shared state; `link` and
`load` at every level read it without mutating (their Lean embeddings do
not even return a state), so they induce no extra step. -/
inductive Reachable {Host : Type} (env : Env Host) : GlobalState Host → Prop where
  | init : Reachable env (GlobalState.initial Host)
  | add (g : GlobalState Host) (name : String) (h : Reachable env g) :
      Reachable env (ExtensionManager.add_extension env g name).1

/-- Boolean success test for `Except`. -/
def exceptIsOk {ε α : Type} : Except ε α → Bool
  | Except.ok _ => true
  | Except.error _ => false

/-! Concrete fixtures (hosts are `Nat`) used to evaluate the theorems on
closed inputs. -/

/-- A link hook that succeeds. -/
def wHookLink : Hook Nat := { id := "wlink", run := fun _ => Except.ok () }

/-- A load hook that succeeds. -/
def wHookLoad : Hook Nat := { id := "wload", run := fun _ => Except.ok () }

/-- A module defining both conventional hook functions. -/
def wModule : PyModule Nat := { linkHook := some wHookLink, loadHook := some wHookLoad }

/-- A module defining neither hook function. -/
def wModuleBare : PyModule Nat := { linkHook := none, loadHook := none }

/-- An app object named `X` with both bound hooks. -/
def wApp : App Nat :=
  { name := "X", linkHook := some wHookLink, loadHook := some wHookLoad }

/-- A factory producing `wApp`. -/
def wFactory : Factory Nat := { id := "wfac", make := wApp }

/-- A plain packet for a given module name. -/
def wMdPlain (modname : String) : Metadata Nat :=
  { module? := some modname, name? := none, app? := none }

/-- A packet carrying an `app` factory. -/
def wMdApp : Metadata Nat :=
  { module? := some "pkgX", name? := none, app? := some wFactory }

/-- A packet with no `module` key. -/
def wMdNoModule : Metadata Nat :=
  { module? := none, name? := some "nomod", app? := none }

/-- An environment where every module imports, `bad` has a packet with
no `module` key, and `missing` has no resolvable metadata. -/
def wEnv : Env Nat :=
  { importModule := fun _ => some wModule
    getMetadata := fun n =>
      if n = "bad" then some [wMdNoModule]
      else if n = "missing" then none
      else some [wMdPlain n] }

/-- The point `wEnv` builds from `wMdPlain modname`. -/
def wPoint (modname : String) : ExtensionPoint Nat :=
  { metadata := { name? := none, app? := none }
    _module_name := modname
    _module := wModule }

/-- The point `wEnv` builds from `wMdApp`. -/
def wPointApp : ExtensionPoint Nat :=
  { metadata := { name? := none, app? := some wApp }
    _module_name := "pkgX"
    _module := wModule }

/-- A point over a module with neither hook and no app. -/
def wPointBare : ExtensionPoint Nat :=
  { metadata := { name? := none, app? := none }
    _module_name := "m"
    _module := wModuleBare }

/-- The package `wEnv` builds for a plain name. -/
def wPkg (n : String) : ExtensionPackage Nat :=
  { name := n, _metadata := [wMdPlain n], _extension_points := [(n, wPoint n)] }

/-- The state after `add_extension "a"` from process start under `wEnv`. -/
def wG1 : GlobalState Nat :=
  (ExtensionManager.add_extension wEnv (GlobalState.initial Nat) "a").1

/-- Enabled dict populated in the order `b`, `a`. -/
def wStateBA : GlobalState Nat :=
  { _enabled_extensions := [("b", wPkg "b"), ("a", wPkg "a")]
    _linked_extensions := []
    _linked_points := [] }

/-- Enabled dict populated in the order `a`, `b`. -/
def wStateAB : GlobalState Nat :=
  { _enabled_extensions := [("a", wPkg "a"), ("b", wPkg "b")]
    _linked_extensions := []
    _linked_points := [] }

/-! Order lemmas for the lexicographic string comparison. -/

theorem charListLt_irrefl (a : List Char) : charListLt a a = false := by
  induction a with
  | nil => rfl
  | cons c cs ih => simp [charListLt, ih]

theorem charListLt_asymm (a b : List Char) (h1 : charListLt a b = true)
    (h2 : charListLt b a = true) : False := by
  induction a generalizing b with
  | nil =>
    cases b with
    | nil => simp [charListLt] at h1
    | cons d ds => simp [charListLt] at h2
  | cons c cs ih =>
    cases b with
    | nil => simp [charListLt] at h1
    | cons d ds =>
      by_cases hcd : c < d
      · have hdc : ¬ d < c := lt_asymm hcd
        simp [charListLt, hcd, hdc] at h2
      · by_cases hdc : d < c
        · simp [charListLt, hcd, hdc] at h1
        · simp [charListLt, hcd, hdc] at h1 h2
          exact ih ds h1 h2

theorem charListLe_trans (a b c : List Char) (h1 : charListLe a b = true)
    (h2 : charListLe b c = true) : charListLe a c = true := by
  induction a generalizing b c with
  | nil => simp [charListLe]
  | cons x xs ih =>
    cases b with
    | nil => simp [charListLe] at h1
    | cons y ys =>
      cases c with
      | nil => simp [charListLe] at h2
      | cons z zs =>
        by_cases hxy : x < y
        · by_cases hyz : y < z
          · simp [charListLe, lt_trans hxy hyz]
          · by_cases hzy : z < y
            · simp [charListLe, hyz, hzy] at h2
            · have hyz' : y = z := le_antisymm (not_lt.mp hzy) (not_lt.mp hyz)
              subst hyz'
              simp [charListLe, hxy]
        · by_cases hyx : y < x
          · simp [charListLe, hxy, hyx] at h1
          · have hxy' : x = y := le_antisymm (not_lt.mp hyx) (not_lt.mp hxy)
            subst hxy'
            simp only [charListLe, hxy, hyx, if_neg] at h1
            by_cases hxz : x < z
            · simp [charListLe, hxz]
            · by_cases hzx : z < x
              · simp [charListLe, hxz, hzx] at h2
              · simp only [charListLe, hxz, hzx, if_neg] at h2 ⊢
                exact ih ys zs h1 h2

theorem charListLe_total (a b : List Char) :
    charListLe a b = true ∨ charListLe b a = true := by
  induction a generalizing b with
  | nil => left; simp [charListLe]
  | cons x xs ih =>
    cases b with
    | nil => right; simp [charListLe]
    | cons y ys =>
      by_cases hxy : x < y
      · left; simp [charListLe, hxy]
      · by_cases hyx : y < x
        · right; simp [charListLe, hyx]
        · rcases ih ys with h | h
          · left; simp [charListLe, hxy, hyx, h]
          · right; simp [charListLe, hxy, hyx, h]

theorem charListLt_of_le_of_ne (a b : List Char) (h : charListLe a b = true)
    (hne : a ≠ b) : charListLt a b = true := by
  induction a generalizing b with
  | nil =>
    cases b with
    | nil => exact absurd rfl hne
    | cons d ds => simp [charListLt]
  | cons c cs ih =>
    cases b with
    | nil => simp [charListLe] at h
    | cons d ds =>
      by_cases hcd : c < d
      · simp [charListLt, hcd]
      · by_cases hdc : d < c
        · simp [charListLe, hcd, hdc] at h
        · have hcd' : c = d := le_antisymm (not_lt.mp hdc) (not_lt.mp hcd)
          subst hcd'
          simp only [charListLe, hcd, hdc, if_neg] at h
          simp only [charListLt, hcd, hdc, if_neg]
          exact ih ds h (fun hx => hne (by rw [hx]))

theorem strLe_trans (a b c : String) (h1 : strLe a b = true) (h2 : strLe b c = true) :
    strLe a c = true :=
  charListLe_trans a.data b.data c.data h1 h2

theorem strLe_total (a b : String) : strLe a b = true ∨ strLe b a = true :=
  charListLe_total a.data b.data

theorem strLt_asymm (a b : String) (h1 : strLt a b = true) (h2 : strLt b a = true) :
    False :=
  charListLt_asymm a.data b.data h1 h2

theorem strLt_irrefl (a : String) : strLt a a = false :=
  charListLt_irrefl a.data

theorem strLt_of_le_of_ne (a b : String) (h : strLe a b = true) (hne : a ≠ b) :
    strLt a b = true :=
  charListLt_of_le_of_ne a.data b.data h
    (fun hx => hne (String.ext hx))

/-! Dict lemmas. -/

theorem dictGet_some_of_mem {α : Type} (l : List (String × α)) (k : String)
    (h : k ∈ l.map Prod.fst) : ∃ v, dictGet l k = some v := by
  induction l with
  | nil => simp at h
  | cons p rest ih =>
    obtain ⟨k', v'⟩ := p
    by_cases hk : k' = k
    · exact ⟨v', by simp [dictGet, hk]⟩
    · have : k ∈ rest.map Prod.fst := by
        rcases List.mem_cons.mp h with h' | h'
        · exact absurd h'.symm hk
        · exact h'
      obtain ⟨v, hv⟩ := ih this
      exact ⟨v, by simp [dictGet, hk, hv]⟩

theorem mem_keys_dictInsert {α : Type} (l : List (String × α)) (k : String) (v : α) :
    k ∈ (dictInsert l k v).map Prod.fst := by
  induction l with
  | nil => simp [dictInsert]
  | cons p rest ih =>
    obtain ⟨k', v'⟩ := p
    by_cases hk : k' = k
    · simp [dictInsert, hk]
    · simp only [dictInsert, if_neg hk, List.map_cons, List.mem_cons]
      exact Or.inr ih

/-! Facts about the sorted enabled view. -/

theorem enabled_extensions_perm {Host : Type} (g : GlobalState Host) :
    (enabled_extensions g).Perm g._enabled_extensions :=
  List.perm_insertionSort _ _

theorem mem_keys_enabled_iff {Host : Type} (g : GlobalState Host) (k : String) :
    (k ∈ (enabled_extensions g).map Prod.fst) ↔
      k ∈ g._enabled_extensions.map Prod.fst :=
  ((enabled_extensions_perm g).map Prod.fst).mem_iff

theorem enabled_extensions_sorted_le {Host : Type} (g : GlobalState Host) :
    (enabled_extensions g).Sorted (fun a b => strLe a.1 b.1 = true) := by
  haveI ht : IsTotal (String × ExtensionPackage Host) (fun a b => strLe a.1 b.1 = true) :=
    ⟨fun a b => strLe_total a.1 b.1⟩
  haveI htr : IsTrans (String × ExtensionPackage Host) (fun a b => strLe a.1 b.1 = true) :=
    ⟨fun a b c h1 h2 => strLe_trans a.1 b.1 c.1 h1 h2⟩
  exact List.sorted_insertionSort _ _

theorem enabled_extensions_pairwise_lt {Host : Type} (g : GlobalState Host)
    (hnd : (g._enabled_extensions.map Prod.fst).Nodup) :
    (enabled_extensions g).Pairwise (fun a b => strLt a.1 b.1 = true) := by
  have hnd' : ((enabled_extensions g).map Prod.fst).Nodup :=
    (((enabled_extensions_perm g).map Prod.fst).nodup_iff).mpr hnd
  have hne : (enabled_extensions g).Pairwise (fun a b => a.1 ≠ b.1) :=
    List.pairwise_map.mp hnd'
  have hle := enabled_extensions_sorted_le g
  exact (List.Pairwise.and hle hne).imp
    (fun h => strLt_of_le_of_ne _ _ h.1 h.2)

theorem enabled_extensions_eq_of_perm {Host : Type} (g₁ g₂ : GlobalState Host)
    (hnd : (g₁._enabled_extensions.map Prod.fst).Nodup)
    (hp : g₁._enabled_extensions.Perm g₂._enabled_extensions) :
    enabled_extensions g₁ = enabled_extensions g₂ := by
  have hnd₂ : (g₂._enabled_extensions.map Prod.fst).Nodup :=
    ((hp.map Prod.fst).nodup_iff).mp hnd
  have hperm : (enabled_extensions g₁).Perm (enabled_extensions g₂) :=
    ((enabled_extensions_perm g₁).trans hp).trans (enabled_extensions_perm g₂).symm
  haveI ha : IsAntisymm (String × ExtensionPackage Host)
      (fun a b => strLt a.1 b.1 = true ∨ a = b) := by
    constructor
    intro a b h1 h2
    rcases h1 with h1 | h1
    · rcases h2 with h2 | h2
      · exact (strLt_asymm a.1 b.1 h1 h2).elim
      · rw [h2] at h1
        rw [strLt_irrefl] at h1
        exact absurd h1 (by simp)
    · exact h1
  have hs₁ : (enabled_extensions g₁).Sorted (fun a b => strLt a.1 b.1 = true ∨ a = b) :=
    (enabled_extensions_pairwise_lt g₁ hnd).imp (fun h => Or.inl h)
  have hs₂ : (enabled_extensions g₂).Sorted (fun a b => strLt a.1 b.1 = true ∨ a = b) :=
    (enabled_extensions_pairwise_lt g₂ hnd₂).imp (fun h => Or.inl h)
  exact List.eq_of_perm_of_sorted hperm hs₁ hs₂

/-! Behaviour of the loop combinator and the catch-and-log wrappers. -/

theorem runAll_ok (f : String → List Event × Except PyErr Unit) (names : List String)
    (h : ∀ n ∈ names, (f n).2 = Except.ok ()) :
    runAll f names = (names.flatMap (fun n => (f n).1), Except.ok ()) := by
  induction names with
  | nil => rfl
  | cons n rest ih =>
    have h1 : (f n).2 = Except.ok () := h n (List.mem_cons_self n rest)
    cases hfn : f n with
    | mk ev r =>
      rw [hfn] at h1
      cases r with
      | error e => exact absurd h1 (by simp)
      | ok u =>
        have ih' := ih (fun m hm => h m (List.mem_cons_of_mem n hm))
        simp only [runAll, hfn, ih', List.flatMap_cons]

theorem logLinkOutcome_snd (r : List Event × Except PyErr Unit) :
    (logLinkOutcome r).2 = Except.ok () := by
  obtain ⟨ev, e⟩ := r
  cases e <;> rfl

theorem link_extension_ok_of_mem {Host : Type} (g : GlobalState Host) (serverapp : Host)
    (n : String) (h : n ∈ (enabled_extensions g).map Prod.fst) :
    (ExtensionManager.link_extension g n serverapp).2 = Except.ok () := by
  obtain ⟨ext, hext⟩ := dictGet_some_of_mem _ _ h
  by_cases hl : (dictGet g._linked_extensions n).getD false
  · simp [ExtensionManager.link_extension, hext, hl]
  · simp [ExtensionManager.link_extension, hext, hl, logLinkOutcome_snd]

theorem load_extension_ok {Host : Type} (g : GlobalState Host) (n : String)
    (serverapp : Host) :
    (ExtensionManager.load_extension g n serverapp).2 = Except.ok () := by
  unfold ExtensionManager.load_extension
  cases dictGet (enabled_extensions g) n with
  | none => rfl
  | some ext =>
    cases hr : ext.load_all_points serverapp with
    | mk ev e => cases e <;> simp [hr]

/-! `add_extension` frame facts and reachability. -/

theorem add_extension_frame {Host : Type} (env : Env Host) (g : GlobalState Host)
    (name : String) :
    ((ExtensionManager.add_extension env g name).1)._linked_extensions =
        g._linked_extensions ∧
      ((ExtensionManager.add_extension env g name).1)._linked_points =
        g._linked_points := by
  unfold ExtensionManager.add_extension
  cases hc : ExtensionPackage.create env name with
  | mk ev r => cases r <;> exact ⟨rfl, rfl⟩

theorem reachable_linked_empty {Host : Type} (env : Env Host) (g : GlobalState Host)
    (h : Reachable env g) :
    g._linked_extensions = [] ∧ g._linked_points = [] := by
  induction h with
  | init => exact ⟨rfl, rfl⟩
  | add g' name _ ih =>
    have hf := add_extension_frame env g' name
    exact ⟨hf.1.trans ih.1, hf.2.trans ih.2⟩

theorem buildPoints_fails {Host : Type} (env : Env Host) (md : Metadata Host)
    (hbad : exceptIsOk (ExtensionPoint.create env md).2 = false) :
    ∀ (mds : List (Metadata Host)) (acc : List (String × ExtensionPoint Host)),
      md ∈ mds → exceptIsOk (buildPoints env mds acc).2 = false := by
  intro mds
  induction mds with
  | nil =>
    intro acc h
    simp at h
  | cons m rest ih =>
    intro acc hmem
    cases hc : ExtensionPoint.create env m with
    | mk ev r =>
      cases r with
      | error e => simp [buildPoints, hc, exceptIsOk]
      | ok point =>
        rcases List.mem_cons.mp hmem with heq | hmem'
        · subst heq
          rw [hc] at hbad
          simp [exceptIsOk] at hbad
        · simp only [buildPoints, hc]
          exact ih (dictInsert acc point.name point) hmem'

/-! The claims. -/

/-- C1: for every state of the manager and every host object,
`link_all_extensions` and `load_all_extensions` return normally whatever
the per-extension hooks do: each extension's failure is caught inside
the per-extension call, and the loop attempts every enabled extension,
in the name-sorted enumeration order of `enabled_extensions`, exactly
once — the run's trace is the concatenation of the per-extension traces
over that sorted name list, a failing extension contributing its warning
log entry. -/
theorem claim_C1_link_load_all_extensions_isolated {Host : Type} (g : GlobalState Host)
    (serverapp : Host) :
    (ExtensionManager.link_all_extensions g serverapp).2 = Except.ok () ∧
    (ExtensionManager.load_all_extensions g serverapp).2 = Except.ok () ∧
    ExtensionManager.link_all_extensions g serverapp =
      (((enabled_extensions g).map Prod.fst).flatMap
        (fun n => (ExtensionManager.link_extension g n serverapp).1), Except.ok ()) ∧
    ExtensionManager.load_all_extensions g serverapp =
      (((enabled_extensions g).map Prod.fst).flatMap
        (fun n => (ExtensionManager.load_extension g n serverapp).1), Except.ok ()) := by
  have hlink := runAll_ok (fun n => ExtensionManager.link_extension g n serverapp)
    ((enabled_extensions g).map Prod.fst)
    (fun n hn => link_extension_ok_of_mem g serverapp n hn)
  have hload := runAll_ok (fun n => ExtensionManager.load_extension g n serverapp)
    ((enabled_extensions g).map Prod.fst)
    (fun n _ => load_extension_ok g n serverapp)
  unfold ExtensionManager.link_all_extensions ExtensionManager.load_all_extensions
  rw [hlink, hload]
  exact ⟨rfl, rfl, rfl, rfl⟩

/-- C2: the `enabled_extensions` view enumerates its entries in strictly
ascending name order (Python string order), and the view is independent
of the insertion order of the underlying enabled dict: permuting the
entries leaves the enumeration unchanged. -/
theorem claim_C2_enabled_extensions_sorted {Host : Type} (g₁ g₂ : GlobalState Host)
    (hnd : (g₁._enabled_extensions.map Prod.fst).Nodup)
    (hp : g₁._enabled_extensions.Perm g₂._enabled_extensions) :
    (enabled_extensions g₁).Pairwise (fun a b => strLt a.1 b.1 = true) ∧
    enabled_extensions g₁ = enabled_extensions g₂ :=
  ⟨enabled_extensions_pairwise_lt g₁ hnd,
   enabled_extensions_eq_of_perm g₁ g₂ hnd hp⟩

/-- C2 witness: inserting `b` then `a` and inserting `a` then `b` give
the same strictly name-sorted enumeration. -/
theorem claim_C2_witness :
    (enabled_extensions wStateBA).Pairwise (fun a b => strLt a.1 b.1 = true) ∧
    enabled_extensions wStateBA = enabled_extensions wStateAB :=
  claim_C2_enabled_extensions_sorted wStateBA wStateAB (by decide)
    (List.Perm.swap ("a", wPkg "a") ("b", wPkg "b") [])

/-- C3: a metadata packet with no `module` key makes `ExtensionPoint`
construction fail with `ExtensionMetadataError`, and a package whose
metadata sequence contains such a packet fails to construct — the error
propagates out of the point-building loop, so no package value (hence no
partial point set) is produced. -/
theorem claim_C3_missing_module_fails {Host : Type} (env : Env Host) (md : Metadata Host)
    (name : String) (mds : List (Metadata Host)) (hm : md.module? = none)
    (hg : env.getMetadata name = some mds) (hmem : md ∈ mds) :
    (ExtensionPoint.create env md).2 = Except.error PyErr.extensionMetadataError ∧
    exceptIsOk (ExtensionPackage.create env name).2 = false := by
  have h1 : (ExtensionPoint.create env md).2 =
      Except.error PyErr.extensionMetadataError := by
    unfold ExtensionPoint.create
    rw [hm]
  refine ⟨h1, ?_⟩
  have hbad : exceptIsOk (ExtensionPoint.create env md).2 = false := by
    rw [h1]
    rfl
  unfold ExtensionPackage.create
  rw [hg]
  cases hb : buildPoints env mds [] with
  | mk ev r =>
    have hfail := buildPoints_fails env md hbad mds [] hmem
    rw [hb] at hfail
    cases r with
    | error e => simp [hb, exceptIsOk]
    | ok pts => simp [exceptIsOk] at hfail

/-- C3 witness: the packet `wMdNoModule` has no `module` key; point
construction fails with the metadata error and the package `bad`, whose
metadata sequence contains the packet, fails to construct. -/
theorem claim_C3_witness :
    (ExtensionPoint.create wEnv wMdNoModule).2 =
      Except.error PyErr.extensionMetadataError ∧
    exceptIsOk (ExtensionPackage.create wEnv "bad").2 = false :=
  claim_C3_missing_module_fails wEnv wMdNoModule "bad" [wMdNoModule] rfl rfl
    (List.mem_cons_self wMdNoModule [])

/-- C4: when the `ExtensionPackage` construction for a name fails,
`add_extension` returns normally with the state unchanged, a warning is
logged, and the name is absent from `enabled_extensions` afterward. -/
theorem claim_C4_add_extension_skips_failures {Host : Type} (env : Env Host)
    (g : GlobalState Host) (name : String)
    (hfail : exceptIsOk (ExtensionPackage.create env name).2 = false)
    (hnotin : name ∉ g._enabled_extensions.map Prod.fst) :
    (ExtensionManager.add_extension env g name).1 = g ∧
    Event.logWarning ∈ (ExtensionManager.add_extension env g name).2 ∧
    name ∉
      (enabled_extensions (ExtensionManager.add_extension env g name).1).map Prod.fst := by
  cases hc : ExtensionPackage.create env name with
  | mk ev r =>
    cases r with
    | ok pkg =>
      rw [hc] at hfail
      simp [exceptIsOk] at hfail
    | error e =>
      have h1 : ExtensionManager.add_extension env g name =
          (g, ev ++ [Event.logWarning]) := by
        unfold ExtensionManager.add_extension
        rw [hc]
      rw [h1]
      refine ⟨rfl, by simp, ?_⟩
      intro hmem
      exact hnotin ((mem_keys_enabled_iff g name).mp hmem)

/-- C4 witness: the name `missing` does not resolve; adding it at
process start changes nothing, warns, and leaves `missing` out of the
enabled view. -/
theorem claim_C4_witness :
    (ExtensionManager.add_extension wEnv (GlobalState.initial Nat) "missing").1 =
      GlobalState.initial Nat ∧
    Event.logWarning ∈
      (ExtensionManager.add_extension wEnv (GlobalState.initial Nat) "missing").2 ∧
    "missing" ∉
      (enabled_extensions
        (ExtensionManager.add_extension wEnv (GlobalState.initial Nat) "missing").1).map
        Prod.fst :=
  claim_C4_add_extension_skips_failures wEnv (GlobalState.initial Nat) "missing" rfl
    (by simp [GlobalState.initial])

/-- C5: for a point with no app object whose module defines neither
conventional hook, `load` fails with `LoaderNotFoundError` while `link`
succeeds as a no-op. -/
theorem claim_C5_load_mandatory_link_optional {Host : Type} (p : ExtensionPoint Host)
    (serverapp : Host) (happ : p.metadata.app? = none)
    (hload : p._module.loadHook = none) (hlink : p._module.linkHook = none) :
    p.load serverapp = ([], Except.error PyErr.loaderNotFoundError) ∧
    p.link serverapp = ([], Except.ok ()) := by
  constructor
  · simp [ExtensionPoint.load, ExtensionPoint.app, happ, hload, get_loader]
  · simp [ExtensionPoint.link, ExtensionPoint.app, happ, hlink]

/-- C5 witness: `wPointBare` has no app and a module with neither hook;
`load` raises the loader-not-found error and `link` is a no-op. -/
theorem claim_C5_witness :
    wPointBare.load 0 = ([], Except.error PyErr.loaderNotFoundError) ∧
    wPointBare.link 0 = ([], Except.ok ()) :=
  claim_C5_load_mandatory_link_optional wPointBare 0 rfl rfl rfl

/-- C6: constructing a point from a packet with an `app` factory invokes
the factory exactly once — the construction trace is exactly one
factory-call event — and stores the produced object in place of the
factory; later `link` and `load` calls never produce a factory-call
event. -/
theorem claim_C6_factory_invoked_once {Host : Type} (env : Env Host) (md : Metadata Host)
    (f : Factory Host) (tr : List Event) (p : ExtensionPoint Host) (eid : String)
    (serverapp : Host) (ha : md.app? = some f)
    (hc : ExtensionPoint.create env md = (tr, Except.ok p)) :
    tr = [Event.factoryCall f.id] ∧
    p.app = some f.make ∧
    Event.factoryCall eid ∉ (p.link serverapp).1 ∧
    Event.factoryCall eid ∉ (p.load serverapp).1 := by
  unfold ExtensionPoint.create at hc
  cases hm : md.module? with
  | none =>
    simp only [hm] at hc
    exact absurd hc (by simp)
  | some mn =>
    simp only [hm] at hc
    cases him : env.importModule mn with
    | none =>
      simp only [him] at hc
      exact absurd hc (by simp)
    | some m =>
      simp only [him, ha] at hc
      rw [Prod.mk.injEq] at hc
      obtain ⟨htr, hok⟩ := hc
      rw [Except.ok.injEq] at hok
      subst hok
      refine ⟨htr.symm, rfl, ?_, ?_⟩
      · cases hl : f.make.linkHook with
        | some h => simp [ExtensionPoint.link, ExtensionPoint.app, hl, Hook.invoke]
        | none => simp [ExtensionPoint.link, ExtensionPoint.app, hl]
      · cases hl : f.make.loadHook with
        | some h =>
          simp [ExtensionPoint.load, ExtensionPoint.app, hl, get_loader, Hook.invoke]
        | none => simp [ExtensionPoint.load, ExtensionPoint.app, hl, get_loader]

/-- C6 witness: constructing a point from `wMdApp` records exactly one
invocation of the factory `wfac`, the packet's app slot afterward holds
the produced object, and linking or loading against host `0` produces no
factory call. -/
theorem claim_C6_witness :
    ([Event.factoryCall "wfac"] : List Event) = [Event.factoryCall wFactory.id] ∧
    wPointApp.app = some wFactory.make ∧
    Event.factoryCall "wfac" ∉ (wPointApp.link 0).1 ∧
    Event.factoryCall "wfac" ∉ (wPointApp.load 0).1 :=
  claim_C6_factory_invoked_once wEnv wMdApp wFactory [Event.factoryCall "wfac"]
    wPointApp "wfac" 0 rfl rfl

/-- C7: the computed `name` of a constructed point is the app object's
name when the packet carried an `app` factory, else the packet's `name`
field, else the module name; the embedding of the property as a pure
Lean function mirrors its side-effect-free reading of the metadata. -/
theorem claim_C7_name_resolution {Host : Type} (env : Env Host) (md : Metadata Host)
    (p : ExtensionPoint Host) (hc : (ExtensionPoint.create env md).2 = Except.ok p) :
    md.module? = some p._module_name ∧
    ExtensionPoint.name p =
      (match md.app? with
       | some f => f.make.name
       | none => md.name?.getD p._module_name) := by
  unfold ExtensionPoint.create at hc
  cases hm : md.module? with
  | none =>
    simp only [hm] at hc
    exact absurd hc (by simp)
  | some mn =>
    simp only [hm] at hc
    cases him : env.importModule mn with
    | none =>
      simp only [him] at hc
      exact absurd hc (by simp)
    | some m =>
      simp only [him] at hc
      cases ha : md.app? with
      | some f =>
        simp only [ha] at hc
        rw [Except.ok.injEq] at hc
        subst hc
        exact ⟨rfl, rfl⟩
      | none =>
        simp only [ha] at hc
        rw [Except.ok.injEq] at hc
        subst hc
        exact ⟨rfl, rfl⟩

/-- C7 witness: for the packet `wMdApp`, whose factory produces an app
named `X`, the constructed point's name is `X`, not the module name
`pkgX`. -/
theorem claim_C7_witness :
    wMdApp.module? = some "pkgX" ∧ ExtensionPoint.name wPointApp = "X" :=
  claim_C7_name_resolution wEnv wMdApp wPointApp rfl

/-- C8: in every reachable state the linked-state dicts are empty — no
operation ever writes them — so the already-linked guards never engage:
`link_point` on a present point name is exactly the point's `link`, and
`link_extension` on a present extension name is exactly the
catch-and-log wrapper around the package's `link_all_points`. -/
theorem claim_C8_linked_maps_stay_empty {Host : Type} (env : Env Host)
    (g : GlobalState Host) (pkg : ExtensionPackage Host) (point_name : String)
    (serverapp : Host) (point : ExtensionPoint Host) (name : String)
    (ext : ExtensionPackage Host) (hr : Reachable env g)
    (hpt : dictGet pkg._extension_points point_name = some point)
    (he : dictGet (enabled_extensions g) name = some ext) :
    g._linked_extensions = [] ∧ g._linked_points = [] ∧
    ExtensionPackage.link_point g._linked_points pkg point_name serverapp =
      point.link serverapp ∧
    ExtensionManager.link_extension g name serverapp =
      logLinkOutcome (ext.link_all_points g._linked_points serverapp) := by
  obtain ⟨h1, h2⟩ := reachable_linked_empty env g hr
  refine ⟨h1, h2, ?_, ?_⟩
  · rw [h2]
    simp [ExtensionPackage.link_point, dictGet, hpt]
  · simp [ExtensionManager.link_extension, he, h1, dictGet]

/-- C8 witness: after one successful `add_extension` from process start,
the linked dicts are still empty and linking the present names runs the
underlying hooks unconditionally. -/
theorem claim_C8_witness :
    wG1._linked_extensions = [] ∧ wG1._linked_points = [] ∧
    ExtensionPackage.link_point wG1._linked_points (wPkg "a") "a" 0 =
      (wPoint "a").link 0 ∧
    ExtensionManager.link_extension wG1 "a" 0 =
      logLinkOutcome ((wPkg "a").link_all_points wG1._linked_points 0) :=
  claim_C8_linked_maps_stay_empty wEnv wG1 (wPkg "a") "a" 0 (wPoint "a") "a" (wPkg "a")
    (Reachable.add (GlobalState.initial Nat) "a" Reachable.init) rfl rfl

/-- C9: `load_extension` returns normally for every name and state —
missing names give an absent reference whose use raises inside the
`try`, and every exception from `load_all_points` is caught and logged;
at the empty initial state the whole observable effect for any name is
exactly one warning log record. -/
theorem claim_C9_load_extension_never_raises {Host : Type} (g : GlobalState Host)
    (name : String) (serverapp : Host) :
    (ExtensionManager.load_extension g name serverapp).2 = Except.ok () ∧
    ExtensionManager.load_extension (GlobalState.initial Host) name serverapp =
      ([Event.logWarning], Except.ok ()) :=
  ⟨load_extension_ok g name serverapp, rfl⟩

/-- C10: the enabled-extensions dict is class-level, process-wide state:
after a successful `add_extension(name)`, `name` is visible in the
`enabled_extensions` view read through any `ExtensionManager` instance,
and constructing a new manager afterward neither resets the shared state
nor hides the entry. -/
theorem claim_C10_class_level_sharing {Host : Type} (env : Env Host)
    (g : GlobalState Host) (name : String) (ev : List Event)
    (extpkg : ExtensionPackage Host) (m : ExtensionManagerInst) (id : Nat)
    (hc : ExtensionPackage.create env name = (ev, Except.ok extpkg)) :
    name ∈
      (ExtensionManagerInst.enabled_extensions_view m
        (ExtensionManager.add_extension env g name).1).map Prod.fst ∧
    (ExtensionManager.new (ExtensionManager.add_extension env g name).1 id).2 =
      (ExtensionManager.add_extension env g name).1 ∧
    name ∈
      (ExtensionManagerInst.enabled_extensions_view
        (ExtensionManager.new (ExtensionManager.add_extension env g name).1 id).1
        (ExtensionManager.new (ExtensionManager.add_extension env g name).1 id).2).map
        Prod.fst := by
  have h1 : (ExtensionManager.add_extension env g name).1 =
      { g with _enabled_extensions := dictInsert g._enabled_extensions name extpkg } := by
    unfold ExtensionManager.add_extension
    rw [hc]
  have hmem : name ∈
      (enabled_extensions (ExtensionManager.add_extension env g name).1).map Prod.fst := by
    rw [h1]
    exact (mem_keys_enabled_iff _ name).mpr (mem_keys_dictInsert _ name extpkg)
  exact ⟨hmem, rfl, hmem⟩

/-- C10 witness: after adding `a` through one manager, the name is in
the enabled view read through a different instance and through a manager
constructed afterward. -/
theorem claim_C10_witness :
    "a" ∈
      (ExtensionManagerInst.enabled_extensions_view ⟨0⟩
        (ExtensionManager.add_extension wEnv (GlobalState.initial Nat) "a").1).map
        Prod.fst ∧
    (ExtensionManager.new (ExtensionManager.add_extension wEnv (GlobalState.initial Nat) "a").1 7).2 =
      (ExtensionManager.add_extension wEnv (GlobalState.initial Nat) "a").1 ∧
    "a" ∈
      (ExtensionManagerInst.enabled_extensions_view
        (ExtensionManager.new
          (ExtensionManager.add_extension wEnv (GlobalState.initial Nat) "a").1 7).1
        (ExtensionManager.new
          (ExtensionManager.add_extension wEnv (GlobalState.initial Nat) "a").1 7).2).map
        Prod.fst :=
  claim_C10_class_level_sharing wEnv (GlobalState.initial Nat) "a" [] (wPkg "a") ⟨0⟩ 7 rfl
